import Mathlib

/-!
Verification development for the radioform repository.

Shallow embedding of the shared-audio ring buffer
(`src/packages/driver/include/RFSharedAudio.h`), the DSP engine
(`src/packages/dsp/src/engine.cpp` and its component headers), the preset
validator (`src/packages/dsp/src/preset.cpp`), and the driver-side fleet
synchroniser / health check (`src/packages/driver/src/Plugin.cpp`,
`src/packages/driver/src/PluginV2.cpp`).

Modelling conventions:
- `uint64` frame counters never wrap in any reachable execution (the spec
  states they "never wrap"), so they are modelled as `Nat`.
- `float` sample values are modelled as exact rationals `ℚ`; the C `float`
  arithmetic performed by the conversion and limiter routines is modelled as
  exact rational arithmetic.  A rational model has no NaN or infinity, so the
  `isfinite` self-heal branches of the audio path never fire; the separate
  `FVal` type used for preset validation does model NaN and the infinities,
  because the validator's behaviour on them is the point of that code.
- steady-clock time points are modelled as rationals (seconds);
  `duration_cast<seconds>(d).count()` is truncation toward zero.
-/

/-- Audio sample formats, from the `RFAudioFormat` enum in RFSharedAudio.h. -/
inductive RFAudioFormat where
  | float32
  | float64
  | int16
  | int24
  | int32
deriving DecidableEq, Repr

/-- Truncation toward zero, the semantics of C's float-to-int cast. -/
def truncQ (x : ℚ) : ℤ :=
  if 0 ≤ x then ⌊x⌋ else ⌈x⌉

/-- Clamp a sample to `[-1, 1]`, as done before the integer conversions in
`rf_ring_write` (`if (sample > 1.0f) sample = 1.0f; if (sample < -1.0f) ...`). -/
def clampQ (x : ℚ) : ℚ :=
  if x > 1 then 1 else if x < -1 then -1 else x

/-- Encode one float32 sample into the ring buffer's storage format, following
the `switch (mem->format)` in `rf_ring_write`.  For the integer formats the
stored value is the result of the C cast (the clamp guarantees the value fits,
so the cast is exact); for Int24 the three stored bytes are the low 24 bits of
the 32-bit value, i.e. the value modulo 2^24. -/
def rf_encode_sample : RFAudioFormat → ℚ → ℚ
  | .float32, x => x
  | .float64, x => x
  | .int16, x => ((truncQ (clampQ x * 32767) : ℤ) : ℚ)
  | .int32, x => ((truncQ (clampQ x * 2147483647) : ℤ) : ℚ)
  | .int24, x => (((truncQ (clampQ x * 8388607)) % 16777216 : ℤ) : ℚ)

/-- Decode one stored sample back to float32, following the
`switch (mem->format)` in `rf_ring_read`.  Int24 sign-extends the 24-bit
pattern (`if (val24 & 0x800000) val24 |= 0xFF000000`) and divides by 8388608;
Int16 divides by 32768; Int32 divides by 2147483648. -/
def rf_decode_sample : RFAudioFormat → ℚ → ℚ
  | .float32, v => v
  | .float64, v => v
  | .int16, v => v / 32768
  | .int32, v => v / 2147483648
  | .int24, v => (if v < 8388608 then v else v - 16777216) / 8388608

/-- The shared-memory segment header fields used by the ring-buffer
operations, from the `RFSharedAudio` struct.  `audio_data` maps the flat
sample index `ring_pos * channels + ch` to the stored (encoded) sample. -/
structure RFSharedAudio where
  ring_capacity_frames : ℕ
  channels : ℕ
  format : RFAudioFormat
  write_index : ℕ
  read_index : ℕ
  total_frames_written : ℕ
  total_frames_read : ℕ
  overrun_count : ℕ
  underrun_count : ℕ
  audio_data : ℕ → ℚ

/-- A freshly initialised segment, from `rf_shared_audio_init`: the whole
header is zeroed (all counters and indices 0) and the payload is zero-filled
by the creating host. -/
def rf_shared_audio_init (capacity channels : ℕ) (format : RFAudioFormat) :
    RFSharedAudio where
  ring_capacity_frames := capacity
  channels := channels
  format := format
  write_index := 0
  read_index := 0
  total_frames_written := 0
  total_frames_read := 0
  overrun_count := 0
  underrun_count := 0
  audio_data := fun _ => 0

/-- Store one input frame into the payload, from the body of the frame loop of
`rf_ring_write`: frame `frame` goes to `ring_pos = (write_idx + frame) % capacity`
and occupies the `channels` flat sample slots starting at `ring_pos * channels`. -/
def writeFrameData (capacity channels : ℕ) (format : RFAudioFormat)
    (write_idx : ℕ) (input : ℕ → ℚ) (data : ℕ → ℚ) (frame : ℕ) : ℕ → ℚ :=
  fun idx =>
    let ring_pos := (write_idx + frame) % capacity
    if ring_pos * channels ≤ idx ∧ idx < ring_pos * channels + channels then
      rf_encode_sample format (input (frame * channels + (idx - ring_pos * channels)))
    else
      data idx

/-- The producer write operation `rf_ring_write`.  It reads `write_index` and
`read_index`, and when `used + num_frames > capacity` it first advances
`read_index` by `used + num_frames - capacity` and increments `overrun_count`;
it then writes all `num_frames` frames with format conversion, advances
`write_index` by `num_frames` and adds `num_frames` to `total_frames_written`.
The C function always returns `num_frames`. -/
def rf_ring_write (mem : RFSharedAudio) (input : ℕ → ℚ) (num_frames : ℕ) :
    RFSharedAudio :=
  let used := mem.write_index - mem.read_index
  let overflow := mem.ring_capacity_frames < used + num_frames
  { mem with
    read_index :=
      if overflow then
        mem.read_index + (used + num_frames - mem.ring_capacity_frames)
      else mem.read_index
    overrun_count :=
      if overflow then mem.overrun_count + 1 else mem.overrun_count
    audio_data :=
      (List.range num_frames).foldl
        (writeFrameData mem.ring_capacity_frames mem.channels mem.format
          mem.write_index input)
        mem.audio_data
    write_index := mem.write_index + num_frames
    total_frames_written := mem.total_frames_written + num_frames }

/-- The consumer read operation `rf_ring_read`.  It reads
`frames_to_read = min available num_frames` frames with format conversion,
zero-fills the tail when `frames_to_read < num_frames` and increments
`underrun_count`, advances `read_index` and `total_frames_read` by
`frames_to_read`, and returns the output buffer of `num_frames * channels`
float32 samples (the C function's return value is always `num_frames`). -/
def rf_ring_read (mem : RFSharedAudio) (num_frames : ℕ) :
    List ℚ × RFSharedAudio :=
  let available := mem.write_index - mem.read_index
  let frames_to_read := min available num_frames
  let output := (List.range (num_frames * mem.channels)).map fun idx =>
    let frame := idx / mem.channels
    let ch := idx % mem.channels
    if frame < frames_to_read then
      rf_decode_sample mem.format
        (mem.audio_data
          (((mem.read_index + frame) % mem.ring_capacity_frames) * mem.channels + ch))
    else 0
  (output,
    { mem with
      underrun_count :=
        if frames_to_read < num_frames then mem.underrun_count + 1
        else mem.underrun_count
      read_index := mem.read_index + frames_to_read
      total_frames_read := mem.total_frames_read + frames_to_read })

/-- Segment states reachable from a fresh segment by completed producer writes
of at most `ring_capacity_frames` frames and consumer reads of any size. -/
inductive RingReachable : RFSharedAudio → Prop where
  | init (capacity channels : ℕ) (format : RFAudioFormat) :
      RingReachable (rf_shared_audio_init capacity channels format)
  | write (s : RFSharedAudio) (input : ℕ → ℚ) (n : ℕ) :
      RingReachable s → n ≤ s.ring_capacity_frames →
      RingReachable (rf_ring_write s input n)
  | read (s : RFSharedAudio) (n : ℕ) :
      RingReachable s → RingReachable (rf_ring_read s n).2

/-- Concrete scenario state from the spec: a fresh capacity-480, 2-channel
segment after writing 480 frames. -/
def overrunDemoBase : RFSharedAudio :=
  rf_ring_write (rf_shared_audio_init 480 2 .float32) (fun _ => 1/2) 480

/-- Concrete scenario state from the spec: `overrunDemoBase` after writing 100
more frames, which overruns the ring. -/
def overrunDemo : RFSharedAudio :=
  rf_ring_write overrunDemoBase (fun _ => 1/2) 100

/-- A float32-representable input sample, `(2^23 + 1) / 2^24`, used to exhibit
the worst-case Int16 round-trip error. -/
def int16RoundtripIn : ℚ := 8388609 / 16777216

/-- Result of writing one frame holding `int16RoundtripIn` into a fresh
mono Int16 segment and immediately reading it back. -/
def int16RoundtripOut : ℚ :=
  (rf_ring_read
    (rf_ring_write (rf_shared_audio_init 4 1 .int16) (fun _ => int16RoundtripIn) 1)
    1).1.getD 0 0

/-- Biquad filter coefficients, from `BiquadCoeffs` in biquad.h (`a0` is
normalised to 1). -/
structure BiquadCoeffs where
  b0 : ℚ
  b1 : ℚ
  b2 : ℚ
  a1 : ℚ
  a2 : ℚ

/-- Per-channel biquad delay-line state, from `BiquadState` in biquad.h. -/
structure BiquadState where
  z1 : ℚ
  z2 : ℚ

/-- One biquad section, from class `Biquad` in biquad.h: current, target and
per-sample delta coefficients, the remaining transition length, and the two
channel states. -/
structure Biquad where
  coeffs : BiquadCoeffs
  target_coeffs : BiquadCoeffs
  coeffs_delta : BiquadCoeffs
  transition_remaining : ℕ
  state_left : BiquadState
  state_right : BiquadState

/-- The coefficient-interpolation step at the top of
`Biquad::processSampleMono`: while a transition is active the coefficients
advance by the delta, and on the final step they snap to the target. -/
def Biquad.stepTransition (b : Biquad) : Biquad :=
  if 0 < b.transition_remaining then
    if b.transition_remaining - 1 = 0 then
      { b with coeffs := b.target_coeffs, transition_remaining := 0 }
    else
      { b with
        coeffs :=
          ⟨b.coeffs.b0 + b.coeffs_delta.b0, b.coeffs.b1 + b.coeffs_delta.b1,
           b.coeffs.b2 + b.coeffs_delta.b2, b.coeffs.a1 + b.coeffs_delta.a1,
           b.coeffs.a2 + b.coeffs_delta.a2⟩
        transition_remaining := b.transition_remaining - 1 }
  else b

/-- `Biquad::processSampleMono`: Direct Form 2 Transposed on the selected
channel state, after the interpolation step.  In the rational model the output
is always finite, so the `isfinite` self-heal branch never fires. -/
def Biquad.processSampleMono (b : Biquad) (input : ℚ) (left : Bool) :
    ℚ × Biquad :=
  let b1 := b.stepTransition
  let st := if left then b1.state_left else b1.state_right
  let output := b1.coeffs.b0 * input + st.z1
  let st2 : BiquadState :=
    ⟨b1.coeffs.b1 * input - b1.coeffs.a1 * output + st.z2,
     b1.coeffs.b2 * input - b1.coeffs.a2 * output⟩
  (output,
    if left then { b1 with state_left := st2 } else { b1 with state_right := st2 })

/-- `Biquad::processSample`: the left channel then the right channel, each
advancing the coefficient interpolation once. -/
def Biquad.processSample (b : Biquad) (in_l in_r : ℚ) : (ℚ × ℚ) × Biquad :=
  let pl := b.processSampleMono in_l true
  let pr := pl.2.processSampleMono in_r false
  ((pl.1, pr.1), pr.2)

/-- The zero-zipper parameter smoother state, from class `ParameterSmoother`
in smoothing.h. -/
structure ParameterSmoother where
  coeff : ℚ
  velocity_coeff : ℚ
  current : ℚ
  target : ℚ
  velocity : ℚ

/-- `ParameterSmoother::next`: damped velocity tracking followed by
second-order exponential smoothing toward the target. -/
def ParameterSmoother.next (s : ParameterSmoother) : ℚ × ParameterSmoother :=
  let error := s.target - s.current
  let velocity := s.velocity_coeff * s.velocity + (1 - s.velocity_coeff) * error
  let current :=
    s.coeff * s.current + (1 - s.coeff) * (s.target - velocity * (1/2))
  (current, { s with velocity := velocity, current := current })

/-- One-pole DC-blocking high-pass state, from class `DCBlocker` in
dc_blocker.h. -/
structure DCBlocker where
  coeff : ℚ
  x_prev : ℚ
  y_prev : ℚ

/-- `DCBlocker::process`: `y[n] = x[n] - x[n-1] + coeff * y[n-1]`. -/
def DCBlocker.process (d : DCBlocker) (input : ℚ) : ℚ × DCBlocker :=
  let output := input - d.x_prev + d.coeff * d.y_prev
  (output, { d with x_prev := input, y_prev := output })

/-- Stereo DC blocker with independent per-channel state, from class
`StereoDCBlocker` in dc_blocker.h. -/
structure StereoDCBlocker where
  left : DCBlocker
  right : DCBlocker

/-- Soft-knee limiter parameters, from class `SoftLimiter` in limiter.h. -/
structure SoftLimiter where
  threshold : ℚ
  knee_start : ℚ

/-- `SoftLimiter::setThreshold` with the linear threshold as parameter: the
source computes `threshold = pow(10, threshold_db / 20)` (transcendental, so
the linear value is taken as the input here) and
`knee_start = threshold * 0.8`. -/
def SoftLimiter.ofThreshold (threshold : ℚ) : SoftLimiter :=
  ⟨threshold, threshold * (8/10)⟩

/-- `SoftLimiter::processSample`: unity gain below the knee; above it, the
rational soft-knee curve `knee + (threshold - knee) * (s / (1 + s))` with
`s = (|x| - knee) / (threshold - knee)`, sign preserved. -/
def SoftLimiter.processSample (L : SoftLimiter) (input : ℚ) : ℚ :=
  let abs_input := |input|
  if abs_input ≤ L.knee_start then input
  else
    let scaled := (abs_input - L.knee_start) / (L.threshold - L.knee_start)
    let limited :=
      L.knee_start + (L.threshold - L.knee_start) * (scaled / (1 + scaled))
    if input < 0 then -limited else limited

/-- The DSP engine state used by the realtime process path, from
`struct radioform_dsp_engine` in engine.cpp.  `bands` holds the active bands
`0 .. num_active_bands - 1`, each paired with its preset `enabled` flag
(disabled bands are skipped entirely by the process loops).  Wall-clock CPU
load measurement is not modelled (real time); the peak-meter decay factor
`exp(-num_frames / (0.3 * sample_rate))` is transcendental and is passed to
the process functions as the `peak_decay` argument. -/
structure radioform_dsp_engine where
  bypass : Bool
  preamp_smoother : ParameterSmoother
  bands : List (Bool × Biquad)
  dc_blocker : StereoDCBlocker
  limiter_enabled : Bool
  limiter : SoftLimiter
  peak_left : ℚ
  peak_right : ℚ
  frames_processed : ℕ

/-- The per-frame EQ cascade from `radioform_dsp_process_interleaved`:
`for band < num_active_bands: if enabled: bands[band].processSample`. -/
def processBandsSample : List (Bool × Biquad) → ℚ → ℚ →
    (ℚ × ℚ) × List (Bool × Biquad)
  | [], l, r => ((l, r), [])
  | (enabled, bq) :: rest, l, r =>
    if enabled then
      let p := bq.processSample l r
      let q := processBandsSample rest p.1.1 p.1.2
      (q.1, (enabled, p.2) :: q.2)
    else
      let q := processBandsSample rest l r
      (q.1, (enabled, bq) :: q.2)

/-- One iteration of the frame loop of `radioform_dsp_process_interleaved`:
smoothed preamp, enabled bands, DC blocker, then the limiter when enabled. -/
def engineProcessFrame (e : radioform_dsp_engine) (in_l in_r : ℚ) :
    (ℚ × ℚ) × radioform_dsp_engine :=
  let sm := e.preamp_smoother.next
  let pb := processBandsSample e.bands (in_l * sm.1) (in_r * sm.1)
  let dl := e.dc_blocker.left.process pb.1.1
  let dr := e.dc_blocker.right.process pb.1.2
  ((if e.limiter_enabled then
      (e.limiter.processSample dl.1, e.limiter.processSample dr.1)
    else (dl.1, dr.1)),
   { e with
     preamp_smoother := sm.2
     bands := pb.2
     dc_blocker := ⟨dl.2, dr.2⟩ })

/-- The frame loop of `radioform_dsp_process_interleaved`, producing the
interleaved output samples for frames `start, start+1, ...` (`count` frames). -/
def engineProcessFramesI (input : ℕ → ℚ) :
    ℕ → ℕ → radioform_dsp_engine → List ℚ × radioform_dsp_engine
  | _, 0, e => ([], e)
  | first, Nat.succ k, e =>
    let p := engineProcessFrame e (input (2 * first)) (input (2 * first + 1))
    let q := engineProcessFramesI input (first + 1) k p.2
    (p.1.1 :: p.1.2 :: q.1, q.2)

/-- Peak magnitudes over the left (even-index) and right (odd-index) samples
of an interleaved buffer, as tracked by the frame loop's
`buffer_peak_left/right`. -/
def bufferPeaks : List ℚ → ℚ × ℚ
  | [] => (0, 0)
  | [l] => (|l|, 0)
  | l :: r :: rest =>
    let p := bufferPeaks rest
    (max |l| p.1, max |r| p.2)

/-- `radioform_dsp_process_interleaved` from engine.cpp: null/zero-frame
guard, lock-free bypass passthrough (memcpy of the input), otherwise the
frame loop followed by the peak-meter update (instant attack, exponential
decay by `peak_decay`) and the `frames_processed` statistics update. -/
def radioform_dsp_process_interleaved (e : radioform_dsp_engine)
    (input : ℕ → ℚ) (num_frames : ℕ) (peak_decay : ℚ) :
    List ℚ × radioform_dsp_engine :=
  if num_frames = 0 then ([], e)
  else if e.bypass then ((List.range (2 * num_frames)).map input, e)
  else
    let p := engineProcessFramesI input 0 num_frames e
    let pk := bufferPeaks p.1
    (p.1,
      { p.2 with
        peak_left := max pk.1 (e.peak_left * peak_decay)
        peak_right := max pk.2 (e.peak_right * peak_decay)
        frames_processed := p.2.frames_processed + num_frames })

/-- The preamp loop of `radioform_dsp_process_planar`: the smoother is
advanced once per frame and the gains are applied to both channels. -/
def smootherGains : ℕ → ParameterSmoother → List ℚ × ParameterSmoother
  | 0, s => ([], s)
  | Nat.succ k, s =>
    let p := s.next
    let q := smootherGains k p.2
    (p.1 :: q.1, q.2)

/-- `Biquad::processBuffer` (planar): per frame, the left then the right
sample, each advancing the coefficient interpolation once. -/
def Biquad.processBufferPlanar :
    Biquad → List ℚ → List ℚ → (List ℚ × List ℚ) × Biquad
  | bq, l :: ls, r :: rs =>
    let pl := bq.processSampleMono l true
    let pr := pl.2.processSampleMono r false
    let q := pr.2.processBufferPlanar ls rs
    ((pl.1 :: q.1.1, pr.1 :: q.1.2), q.2)
  | bq, _, _ => (([], []), bq)

/-- The band loop of `radioform_dsp_process_planar`: each enabled band
processes the whole buffer in place. -/
def processBandsBuffer : List (Bool × Biquad) → List ℚ → List ℚ →
    (List ℚ × List ℚ) × List (Bool × Biquad)
  | [], ls, rs => ((ls, rs), [])
  | (enabled, bq) :: rest, ls, rs =>
    if enabled then
      let p := bq.processBufferPlanar ls rs
      let q := processBandsBuffer rest p.1.1 p.1.2
      (q.1, (enabled, p.2) :: q.2)
    else
      let q := processBandsBuffer rest ls rs
      (q.1, (enabled, bq) :: q.2)

/-- `DCBlocker::process` over a whole channel buffer, as in
`StereoDCBlocker::processBuffer`. -/
def DCBlocker.processList : DCBlocker → List ℚ → List ℚ × DCBlocker
  | d, [] => ([], d)
  | d, x :: xs =>
    let p := d.process x
    let q := p.2.processList xs
    (p.1 :: q.1, q.2)

/-- Peak magnitude of one planar channel buffer. -/
def maxAbsList : List ℚ → ℚ
  | [] => 0
  | x :: xs => max |x| (maxAbsList xs)

/-- `radioform_dsp_process_planar` from engine.cpp: null/zero-frame guard,
bypass passthrough (memcpy of both channels), otherwise copy to the output,
then the preamp loop, the per-band buffer loop, the DC blocker, the limiter
when enabled, and the peak-meter / statistics updates. -/
def radioform_dsp_process_planar (e : radioform_dsp_engine)
    (input_left input_right : ℕ → ℚ) (num_frames : ℕ) (peak_decay : ℚ) :
    (List ℚ × List ℚ) × radioform_dsp_engine :=
  if num_frames = 0 then (([], []), e)
  else if e.bypass then
    (((List.range num_frames).map input_left,
      (List.range num_frames).map input_right), e)
  else
    let g := smootherGains num_frames e.preamp_smoother
    let ls1 := List.zipWith (fun x gain => x * gain)
      ((List.range num_frames).map input_left) g.1
    let rs1 := List.zipWith (fun x gain => x * gain)
      ((List.range num_frames).map input_right) g.1
    let pb := processBandsBuffer e.bands ls1 rs1
    let dl := e.dc_blocker.left.processList pb.1.1
    let dr := e.dc_blocker.right.processList pb.1.2
    let ls4 := if e.limiter_enabled then dl.1.map e.limiter.processSample else dl.1
    let rs4 := if e.limiter_enabled then dr.1.map e.limiter.processSample else dr.1
    ((ls4, rs4),
      { e with
        preamp_smoother := g.2
        bands := pb.2
        dc_blocker := ⟨dl.2, dr.2⟩
        peak_left := max (maxAbsList ls4) (e.peak_left * peak_decay)
        peak_right := max (maxAbsList rs4) (e.peak_right * peak_decay)
        frames_processed := e.frames_processed + num_frames })

/-- A concrete engine with bypass engaged, for the bypass witness: flat bands,
default limiter threshold near `-0.1 dB`. -/
def bypassDemoEngine : radioform_dsp_engine where
  bypass := true
  preamp_smoother := ⟨0, 0, 1, 1, 0⟩
  bands := []
  dc_blocker := ⟨⟨999/1000, 0, 0⟩, ⟨999/1000, 0, 0⟩⟩
  limiter_enabled := true
  limiter := SoftLimiter.ofThreshold (99/100)
  peak_left := 0
  peak_right := 0
  frames_processed := 0

/-- The same concrete engine with bypass off, for the limiter witness. -/
def limiterDemoEngine : radioform_dsp_engine :=
  { bypassDemoEngine with bypass := false }

/-- A C `float` value as seen by the preset validator: finite, NaN, or one of
the infinities.  The validator's behaviour on NaN/Inf is the point of that
code, so unlike the audio path these are modelled explicitly. -/
inductive FVal where
  | fin (q : ℚ)
  | nan
  | pinf
  | ninf
deriving DecidableEq, Repr

/-- IEEE-754 `<` on floats: any comparison with NaN is false; the infinities
compare as extremes. -/
def FVal.ltb : FVal → FVal → Bool
  | .nan, _ => false
  | _, .nan => false
  | .fin a, .fin b => decide (a < b)
  | .pinf, _ => false
  | .ninf, .ninf => false
  | .ninf, _ => true
  | .fin _, .pinf => true
  | .fin _, .ninf => false

/-- IEEE-754 `>` on floats. -/
def FVal.gtb (a b : FVal) : Bool := FVal.ltb b a

/-- `std::isnan`. -/
def FVal.isnan : FVal → Bool
  | .nan => true
  | _ => false

/-- `std::isinf`. -/
def FVal.isinf : FVal → Bool
  | .pinf => true
  | .ninf => true
  | _ => false

/-- Error codes from `radioform_error_t` in radioform_types.h. -/
inductive radioform_error_t where
  | ok
  | invalid_param
  | null_pointer
  | out_of_memory
  | invalid_state
  | unsupported
deriving DecidableEq, Repr

/-- One EQ band configuration, from `radioform_band_t` in radioform_types.h.
`type` is the raw enum integer (`RADIOFORM_FILTER_PEAK = 0` through
`RADIOFORM_FILTER_BAND_PASS = 6`), since the validator range-checks it. -/
structure radioform_band_t where
  frequency_hz : FVal
  gain_db : FVal
  q_factor : FVal
  type : ℕ
  enabled : Bool
deriving DecidableEq, Repr

/-- A complete preset, from `radioform_preset_t` in radioform_types.h.
`bands` holds the 10-entry array. -/
structure radioform_preset_t where
  bands : List radioform_band_t
  num_bands : ℕ
  preamp_db : FVal
  limiter_enabled : Bool
  limiter_threshold_db : FVal
  name : String
deriving DecidableEq, Repr

/-- A zeroed band, the value of out-of-range array entries after the
`memset` in `radioform_dsp_preset_init_flat`. -/
def defaultBand : radioform_band_t :=
  ⟨.fin 0, .fin 0, .fin 0, 0, false⟩

/-- The per-band checks from the loop of `radioform_dsp_preset_validate`:
frequency in [20, 20000], gain in [-12, 12], Q in [0.1, 10], type in range.
Each failed comparison returns `RADIOFORM_ERROR_INVALID_PARAM`, so the loop
body is equivalent to this conjunction.  With NaN all four range comparisons
are false, so a NaN band field passes. -/
def bandOk (b : radioform_band_t) : Bool :=
  !(FVal.ltb b.frequency_hz (.fin 20) || FVal.gtb b.frequency_hz (.fin 20000)) &&
  !(FVal.ltb b.gain_db (.fin (-12)) || FVal.gtb b.gain_db (.fin 12)) &&
  !(FVal.ltb b.q_factor (.fin (mkRat 1 10)) || FVal.gtb b.q_factor (.fin 10)) &&
  !(decide (6 < b.type))

/-- `radioform_dsp_preset_validate` from preset.cpp (the null-pointer guard
has no counterpart in the model): `num_bands` in [1, 10], each of the first
`num_bands` bands range-checked, preamp in [-12, 12], limiter threshold in
[-6, 0], and finally an explicit NaN/Inf check — on `preamp_db` only. -/
def radioform_dsp_preset_validate (p : radioform_preset_t) : radioform_error_t :=
  if p.num_bands = 0 || decide (10 < p.num_bands) then .invalid_param
  else if !((List.range p.num_bands).all fun i =>
      bandOk (p.bands.getD i defaultBand)) then .invalid_param
  else if FVal.ltb p.preamp_db (.fin (-12)) ||
      FVal.gtb p.preamp_db (.fin 12) then .invalid_param
  else if FVal.ltb p.limiter_threshold_db (.fin (-6)) ||
      FVal.gtb p.limiter_threshold_db (.fin 0) then .invalid_param
  else if p.preamp_db.isnan || p.preamp_db.isinf then .invalid_param
  else .ok

/-- `radioform_dsp_preset_init_flat` from preset.cpp: ten disabled peak bands
at the standard graphic-EQ frequencies, Q 1, preamp 0 dB, limiter off with a
`-0.1 dB` threshold, name "Flat". -/
def radioform_dsp_preset_init_flat : radioform_preset_t where
  bands :=
    [⟨.fin 32, .fin 0, .fin 1, 0, false⟩, ⟨.fin 64, .fin 0, .fin 1, 0, false⟩,
     ⟨.fin 125, .fin 0, .fin 1, 0, false⟩, ⟨.fin 250, .fin 0, .fin 1, 0, false⟩,
     ⟨.fin 500, .fin 0, .fin 1, 0, false⟩, ⟨.fin 1000, .fin 0, .fin 1, 0, false⟩,
     ⟨.fin 2000, .fin 0, .fin 1, 0, false⟩, ⟨.fin 4000, .fin 0, .fin 1, 0, false⟩,
     ⟨.fin 8000, .fin 0, .fin 1, 0, false⟩, ⟨.fin 16000, .fin 0, .fin 1, 0, false⟩]
  num_bands := 10
  preamp_db := .fin 0
  limiter_enabled := false
  limiter_threshold_db := .fin (mkRat (-1) 10)
  name := "Flat"

/-- The flat preset with band 0's frequency replaced by NaN: every range
comparison on NaN is false, so the validator accepts it. -/
def presetNanDemo : radioform_preset_t :=
  { radioform_dsp_preset_init_flat with
    bands :=
      ⟨FVal.nan, .fin 0, .fin 1, 0, false⟩ ::
        radioform_dsp_preset_init_flat.bands.drop 1 }

/-- The flat preset with `preamp_db` replaced by positive infinity. -/
def presetInfDemo : radioform_preset_t :=
  { radioform_dsp_preset_init_flat with preamp_db := FVal.pinf }

/-- The engine state touched by preset management, from
`radioform_dsp_apply_preset` / `radioform_dsp_get_preset` in engine.cpp.
Only the fields those functions read or write through the preset record are
modelled; the per-band coefficient synthesis and smoother retargeting that
`apply_preset` also performs write other engine fields (transcendental RBJ
formulas) and never touch `current_preset`. -/
structure EnginePresetState where
  current_preset : radioform_preset_t
  num_active_bands : ℕ
  limiter_enabled : Bool

/-- `radioform_dsp_apply_preset`: validate, then `memcpy` the preset into
`current_preset` unmodified and record `num_active_bands` and the limiter
enable; a validation failure leaves the engine untouched and returns the
error. -/
def radioform_dsp_apply_preset (e : EnginePresetState)
    (p : radioform_preset_t) : radioform_error_t × EnginePresetState :=
  match radioform_dsp_preset_validate p with
  | .ok =>
    (.ok,
      { current_preset := p
        num_active_bands := p.num_bands
        limiter_enabled := p.limiter_enabled })
  | e2 => (e2, e)

/-- `radioform_dsp_get_preset`: `memcpy` of the stored preset. -/
def radioform_dsp_get_preset (e : EnginePresetState) : radioform_preset_t :=
  e.current_preset

/-- A concrete engine preset state holding the flat preset. -/
def presetDemoEngine : EnginePresetState :=
  ⟨radioform_dsp_preset_init_flat, 10, false⟩

/-- The fleet-synchroniser state from `RadioformGlobalState` in Plugin.cpp:
the present proxy devices (by UID) and the per-UID removal timestamps used by
the cooldown (`device_removal_times`). -/
structure FleetState where
  devices : List String
  removal_times : String → Option ℚ

/-- `RemoveDevice` from Plugin.cpp: erase the device and record the removal
time for the cooldown. -/
def RemoveDevice (g : FleetState) (uid : String) (now : ℚ) : FleetState :=
  if uid ∈ g.devices then
    { devices := g.devices.erase uid
      removal_times := fun u => if u = uid then some now else g.removal_times u }
  else g

/-- `IsDeviceInCooldown` from Plugin.cpp: a UID is in cooldown while fewer
than `DEVICE_COOLDOWN_SEC = 10` whole seconds have elapsed since its recorded
removal (`duration_cast<seconds>` truncates). -/
def IsDeviceInCooldown (g : FleetState) (uid : String) (now : ℚ) : Bool :=
  match g.removal_times uid with
  | none => false
  | some t => decide (truncQ (now - t) < 10)

/-- `AddDevice` from Plugin.cpp: create the proxy unless already present. -/
def AddDevice (g : FleetState) (uid : String) : FleetState :=
  if uid ∈ g.devices then g else { g with devices := uid :: g.devices }

/-- One iteration of the add loop of `SyncDevices` (Plugin.cpp): a desired
UID not currently present is skipped while in cooldown; otherwise it is added
and its removal time is cleared. -/
def syncAddStep (now : ℚ) (g : FleetState) (uid : String) : FleetState :=
  if uid ∈ g.devices then g
  else if IsDeviceInCooldown g uid now then g
  else
    let g1 := AddDevice g uid
    { g1 with
      removal_times := fun u => if u = uid then none else g1.removal_times u }

/-- `SyncDevices` from Plugin.cpp.  Parsing the control file and probing the
per-UID host heartbeat (`ParseControlFile` / `HostHeartbeatFresh`) are
filesystem effects; their results enter here as the `desired` UID list and the
`fresh` predicate.  Fresh desired UIDs are added subject to the cooldown;
present UIDs no longer desired are removed with their removal time
recorded. -/
def SyncDevices (g : FleetState) (desired : List String)
    (fresh : String → Bool) (now : ℚ) : FleetState :=
  let want := desired.filter fresh
  let g1 := want.foldl (syncAddStep now) g
  let to_remove := g1.devices.filter fun uid => decide (uid ∉ want)
  to_remove.foldl (fun acc uid => RemoveDevice acc uid now) g1

/-- Concrete fleet state for the cooldown witness: no devices, UID `dev-a`
removed at time 0. -/
def fleetDemoState : FleetState :=
  ⟨[], fun u => if u = "dev-a" then some 0 else none⟩

/-- The per-UID heartbeat cache entry from `HostHeartbeatState` in
PluginV2.cpp: the last observed counter value and the time it last changed
(initialised to the time of first observation). -/
structure HeartbeatCache where
  last_value : ℕ
  last_change : ℚ

/-- The observations `UniversalAudioHandler::IsHealthy` (PluginV2.cpp) makes
of its environment: whether the segment is mapped, whether `stat` on the
backing file succeeds, and the segment's atomics. -/
structure HealthObs where
  mapped : Bool
  file_ok : Bool
  host_connected : ℕ
  host_heartbeat : ℕ
  write_index : ℕ
  read_index : ℕ
  ring_capacity_frames : ℕ

/-- The ring-integrity checks at the end of `IsHealthy`:
`write_index ≥ read_index` and `used ≤ capacity`. -/
def ringChecksOk (o : HealthObs) : Bool :=
  !(decide (o.write_index < o.read_index)) &&
  !(decide (o.ring_capacity_frames < o.write_index - o.read_index))

/-- `UniversalAudioHandler::IsHealthy` from PluginV2.cpp: segment mapped,
backing file present, `host_connected == 1`; then the heartbeat check — a
changed counter refreshes the cache and passes, an unchanged counter fails
once `HEARTBEAT_TIMEOUT_SEC = 5` whole seconds have elapsed since the last
change (`duration_cast<seconds>` truncates); finally the ring checks.
Returns the verdict and the updated heartbeat cache. -/
def IsHealthy (o : HealthObs) (cache : HeartbeatCache) (now : ℚ) :
    Bool × HeartbeatCache :=
  if o.mapped = false then (false, cache)
  else if o.file_ok = false then (false, cache)
  else if o.host_connected = 0 then (false, cache)
  else if o.host_heartbeat ≠ cache.last_value then
    (ringChecksOk o, ⟨o.host_heartbeat, now⟩)
  else if 5 ≤ truncQ (now - cache.last_change) then (false, cache)
  else (ringChecksOk o, cache)

/-- The periodic health-check block at the top of
`UniversalAudioHandler::OnWriteMixedOutput` (PluginV2.cpp): when
`HEALTH_CHECK_INTERVAL_SEC = 3` seconds have elapsed since the last check,
run `IsHealthy` and invoke `AttemptRecovery` exactly when it fails.  Returns
(recovery attempted, heartbeat cache, last health-check time). -/
def OnWriteHealthPhase (o : HealthObs) (cache : HeartbeatCache)
    (now last_health_check : ℚ) : Bool × HeartbeatCache × ℚ :=
  if 3 ≤ truncQ (now - last_health_check) then
    ((!(IsHealthy o cache now).1), (IsHealthy o cache now).2, now)
  else (false, cache, last_health_check)

/-- Concrete health observation for the heartbeat witness: mapped segment,
file present, host connected, heartbeat stuck at the cached value 7, sane
ring indices. -/
def healthDemoObs : HealthObs :=
  ⟨true, true, 1, 7, 100, 50, 480⟩

/-- Concrete heartbeat cache for the witness: value 7 last changed at time 0. -/
def healthDemoCache : HeartbeatCache := ⟨7, 0⟩

/-- Capacity and channel count are never changed by the ring operations. -/
theorem ringReachable_capacity_eq (s : RFSharedAudio) (input : ℕ → ℚ) (n : ℕ) :
    (rf_ring_write s input n).ring_capacity_frames = s.ring_capacity_frames ∧
    (rf_ring_read s n).2.ring_capacity_frames = s.ring_capacity_frames := by
  constructor <;> rfl

/-- C1: starting from a freshly initialised segment, after every completed
`rf_ring_write` (of at most `ring_capacity_frames` frames) or `rf_ring_read`
operation the ring satisfies `0 ≤ write_index - read_index ≤
ring_capacity_frames` (in the Nat model: `read_index ≤ write_index` and
`write_index - read_index ≤ ring_capacity_frames`). -/
theorem ring_invariant_of_reachable (s : RFSharedAudio)
    (h : RingReachable s) :
    s.read_index ≤ s.write_index ∧
    s.write_index - s.read_index ≤ s.ring_capacity_frames := by
  induction h with
  | init capacity channels format =>
      simp [rf_shared_audio_init]
  | write s input n _ hn ih =>
      obtain ⟨h1, h2⟩ := ih
      unfold rf_ring_write
      dsimp only
      split <;> constructor <;> omega
  | read s n _ ih =>
      obtain ⟨h1, h2⟩ := ih
      unfold rf_ring_read
      dsimp only
      constructor <;> omega

/-- Witness for C1: the invariant holds after a concrete write of 480 frames
followed by a read of 100 frames on a fresh capacity-480 segment. -/
theorem ring_invariant_witness :
    RingReachable
      (rf_ring_read
        (rf_ring_write (rf_shared_audio_init 480 2 .float32) (fun _ => 1/2) 480)
        100).2 ∧
    ((rf_ring_read
        (rf_ring_write (rf_shared_audio_init 480 2 .float32) (fun _ => 1/2) 480)
        100).2.read_index ≤
      (rf_ring_read
        (rf_ring_write (rf_shared_audio_init 480 2 .float32) (fun _ => 1/2) 480)
        100).2.write_index ∧
      (rf_ring_read
        (rf_ring_write (rf_shared_audio_init 480 2 .float32) (fun _ => 1/2) 480)
        100).2.write_index -
        (rf_ring_read
          (rf_ring_write (rf_shared_audio_init 480 2 .float32) (fun _ => 1/2) 480)
          100).2.read_index ≤
      (rf_ring_read
        (rf_ring_write (rf_shared_audio_init 480 2 .float32) (fun _ => 1/2) 480)
        100).2.ring_capacity_frames) := by
  have hreach : RingReachable
      (rf_ring_read
        (rf_ring_write (rf_shared_audio_init 480 2 .float32) (fun _ => 1/2) 480)
        100).2 := by
    refine RingReachable.read _ 100 ?_
    refine RingReachable.write _ _ 480 (RingReachable.init 480 2 .float32) ?_
    decide
  exact ⟨hreach, ring_invariant_of_reachable _ hreach⟩

/-- C2: writing `n` frames with `used + n > capacity` increments
`overrun_count` by exactly one, advances `read_index` by exactly
`used + n - capacity`, writes all `n` frames (`write_index` and
`total_frames_written` each increase by `n`), and re-establishes
`0 ≤ write_index - read_index ≤ capacity`. -/
theorem rf_ring_write_overrun (s : RFSharedAudio) (input : ℕ → ℚ) (n : ℕ)
    (hrw : s.read_index ≤ s.write_index)
    (hover : s.ring_capacity_frames < (s.write_index - s.read_index) + n) :
    (rf_ring_write s input n).overrun_count = s.overrun_count + 1 ∧
    (rf_ring_write s input n).read_index =
      s.read_index + ((s.write_index - s.read_index) + n - s.ring_capacity_frames) ∧
    (rf_ring_write s input n).write_index = s.write_index + n ∧
    (rf_ring_write s input n).total_frames_written = s.total_frames_written + n ∧
    (rf_ring_write s input n).read_index ≤ (rf_ring_write s input n).write_index ∧
    (rf_ring_write s input n).write_index - (rf_ring_write s input n).read_index ≤
      s.ring_capacity_frames := by
  unfold rf_ring_write
  dsimp only
  rw [if_pos hover, if_pos hover]
  refine ⟨rfl, rfl, rfl, rfl, by omega, by omega⟩

/-- Witness for C2, the spec's concrete overrun scenario: capacity 480,
2 channels, write 480 frames then 100 more; afterwards `overrun_count = 1`,
`read_index = 100`, `write_index = 580` and `used = 480`. -/
theorem rf_ring_write_overrun_witness :
    (overrunDemoBase.read_index ≤ overrunDemoBase.write_index ∧
      overrunDemoBase.ring_capacity_frames <
        (overrunDemoBase.write_index - overrunDemoBase.read_index) + 100) ∧
    overrunDemo.overrun_count = 1 ∧
    overrunDemo.read_index = 100 ∧
    overrunDemo.write_index = 580 ∧
    overrunDemo.write_index - overrunDemo.read_index = 480 := by
  have h := rf_ring_write_overrun overrunDemoBase (fun _ => 1/2) 100
    (by decide) (by decide)
  obtain ⟨h1, h2, h3, h4, h5, h6⟩ := h
  refine ⟨⟨by decide, by decide⟩, h1.trans (by decide), h2.trans (by decide),
    h3.trans (by decide), ?_⟩
  show (rf_ring_write overrunDemoBase (fun _ => 1/2) 100).write_index -
      (rf_ring_write overrunDemoBase (fun _ => 1/2) 100).read_index = 480
  rw [h3, h2]
  decide

/-- C3: reading `n` frames with `available < n` increments `underrun_count` by
exactly one, fills the tail `(n - available) * channels` output samples with
zero, advances `read_index` by exactly `available` (so on an empty ring
`read_index` is unchanged), advances `total_frames_read` by `available`, and
returns a full buffer of `n * channels` samples. -/
theorem rf_ring_read_underrun (s : RFSharedAudio) (n : ℕ)
    (hunder : s.write_index - s.read_index < n) :
    (rf_ring_read s n).2.underrun_count = s.underrun_count + 1 ∧
    (rf_ring_read s n).2.read_index =
      s.read_index + (s.write_index - s.read_index) ∧
    (rf_ring_read s n).2.total_frames_read =
      s.total_frames_read + (s.write_index - s.read_index) ∧
    (rf_ring_read s n).1.length = n * s.channels ∧
    (∀ idx, idx < n * s.channels →
      s.write_index - s.read_index ≤ idx / s.channels →
      (rf_ring_read s n).1.getD idx 1 = 0) := by
  unfold rf_ring_read
  dsimp only
  rw [Nat.min_eq_left (Nat.le_of_lt hunder)]
  refine ⟨by rw [if_pos hunder], rfl, rfl, by simp, ?_⟩
  intro idx hidx htail
  rw [List.getD_eq_getElem _ _ (by simpa using hidx)]
  simp only [List.getElem_map, List.getElem_range]
  rw [if_neg (by omega)]

/-- Witness for C3, the spec's concrete underrun scenario: empty 2-channel
ring, consumer requests 256 frames; output is 512 zeros, `underrun_count = 1`,
`read_index` unchanged at 0. -/
theorem rf_ring_read_underrun_witness :
    ((rf_shared_audio_init 480 2 .float32).write_index -
        (rf_shared_audio_init 480 2 .float32).read_index < 256) ∧
    (rf_ring_read (rf_shared_audio_init 480 2 .float32) 256).2.underrun_count = 1 ∧
    (rf_ring_read (rf_shared_audio_init 480 2 .float32) 256).2.read_index = 0 ∧
    (rf_ring_read (rf_shared_audio_init 480 2 .float32) 256).1.length = 512 ∧
    (∀ idx, idx < 512 →
      (rf_ring_read (rf_shared_audio_init 480 2 .float32) 256).1.getD idx 1 = 0) := by
  have h := rf_ring_read_underrun (rf_shared_audio_init 480 2 .float32) 256
    (by decide)
  obtain ⟨h1, h2, h3, h4, h5⟩ := h
  refine ⟨by decide, h1.trans (by decide), h2.trans (by decide),
    h4.trans (by decide), ?_⟩
  intro idx hidx
  exact h5 idx (by simpa using hidx) (by simp [rf_shared_audio_init])

/-- Truncation toward zero moves a rational by less than one. -/
theorem abs_truncQ_sub_le (y : ℚ) : |((truncQ y : ℤ) : ℚ) - y| ≤ 1 := by
  unfold truncQ
  split
  · have h1 := Int.floor_le y
    have h2 := Int.lt_floor_add_one y
    rw [abs_le]
    constructor <;> linarith
  · have h1 := Int.le_ceil y
    have h2 := Int.ceil_lt_add_one y
    rw [abs_le]
    constructor <;> linarith

/-- Truncation toward zero does not increase the magnitude. -/
theorem abs_truncQ_le (y : ℚ) : |((truncQ y : ℤ) : ℚ)| ≤ |y| := by
  unfold truncQ
  split
  · next h =>
    rw [abs_of_nonneg h, abs_of_nonneg (by exact_mod_cast Int.floor_nonneg.mpr h)]
    exact_mod_cast Int.floor_le y
  · next h =>
    push_neg at h
    have hc : (⌈y⌉ : ℤ) ≤ 0 := Int.ceil_le.mpr (by exact_mod_cast h.le)
    rw [abs_of_neg h, abs_of_nonpos (by exact_mod_cast hc)]
    linarith [Int.le_ceil y]

/-- The write-path clamp is the identity on samples already in `[-1, 1]`. -/
theorem clampQ_eq_self (x : ℚ) (hx : |x| ≤ 1) : clampQ x = x := by
  rw [abs_le] at hx
  unfold clampQ
  rw [if_neg (by linarith), if_neg (by linarith)]

/-- Scale-by-S, truncate, divide-by-(S+1) reconstructs a sample of magnitude
at most one to within `2 / (S + 1)`. -/
theorem roundtrip_scale (x S : ℚ) (hS : 0 ≤ S) (hx : |x| ≤ 1) :
    |((truncQ (x * S) : ℤ) : ℚ) / (S + 1) - x| ≤ 2 / (S + 1) := by
  have hD : (0 : ℚ) < S + 1 := by linarith
  have h1 : |((truncQ (x * S) : ℤ) : ℚ) - x * (S + 1)| ≤ 2 := by
    have h2 := abs_truncQ_sub_le (x * S)
    calc |((truncQ (x * S) : ℤ) : ℚ) - x * (S + 1)|
        = |(((truncQ (x * S) : ℤ) : ℚ) - x * S) + (-x)| := by ring_nf
      _ ≤ |((truncQ (x * S) : ℤ) : ℚ) - x * S| + |(-x)| := abs_add _ _
      _ ≤ 1 + 1 := by rw [abs_neg]; exact add_le_add h2 hx
      _ = 2 := by norm_num
  have heq : ((truncQ (x * S) : ℤ) : ℚ) / (S + 1) - x =
      (((truncQ (x * S) : ℤ) : ℚ) - x * (S + 1)) / (S + 1) := by
    field_simp
    ring
  rw [heq, abs_div, abs_of_pos hD]
  gcongr

/-- Int16 decode ∘ encode error bound: at most `2 / 32768`. -/
theorem roundtrip_int16 (x : ℚ) (hx : |x| ≤ 1) :
    |rf_decode_sample .int16 (rf_encode_sample .int16 x) - x| ≤ 2 / 32768 := by
  have h := roundtrip_scale x 32767 (by norm_num) hx
  simp only [rf_encode_sample, rf_decode_sample, clampQ_eq_self x hx]
  norm_num at h ⊢
  convert h using 2

/-- Int32 decode ∘ encode error bound: at most `2 / 2147483648`. -/
theorem roundtrip_int32 (x : ℚ) (hx : |x| ≤ 1) :
    |rf_decode_sample .int32 (rf_encode_sample .int32 x) - x| ≤ 2 / 2147483648 := by
  have h := roundtrip_scale x 2147483647 (by norm_num) hx
  simp only [rf_encode_sample, rf_decode_sample, clampQ_eq_self x hx]
  norm_num at h ⊢
  convert h using 2

/-- The 24-bit pack / sign-extend pair is the identity on values that fit in
24-bit two's complement, composed with the final division: Int24
decode ∘ encode error bound is at most `2 / 8388608`. -/
theorem roundtrip_int24 (x : ℚ) (hx : |x| ≤ 1) :
    |rf_decode_sample .int24 (rf_encode_sample .int24 x) - x| ≤ 2 / 8388608 := by
  have h := roundtrip_scale x 8388607 (by norm_num) hx
  have habs : |((truncQ (x * 8388607) : ℤ) : ℚ)| ≤ 8388607 := by
    calc |((truncQ (x * 8388607) : ℤ) : ℚ)| ≤ |x * 8388607| := abs_truncQ_le _
      _ = |x| * 8388607 := by rw [abs_mul]; norm_num
      _ ≤ 1 * 8388607 := by gcongr
      _ = 8388607 := by norm_num
  set e : ℤ := truncQ (x * 8388607) with he
  have habs' : |e| ≤ 8388607 := by exact_mod_cast habs
  rw [abs_le] at habs'
  simp only [rf_encode_sample, rf_decode_sample, clampQ_eq_self x hx, ← he]
  have hunpack :
      (if ((e % 16777216 : ℤ) : ℚ) < 8388608 then ((e % 16777216 : ℤ) : ℚ)
        else ((e % 16777216 : ℤ) : ℚ) - 16777216) = (e : ℚ) := by
    rcases le_or_lt 0 e with hpos | hneg
    · have hmod : e % 16777216 = e := Int.emod_eq_of_lt hpos (by omega)
      rw [hmod, if_pos (by exact_mod_cast (show e < (8388608 : ℤ) by omega))]
    · have hmod : e % 16777216 = e + 16777216 := by
        have h1 : (e + 16777216 * 1) % 16777216 = e % 16777216 :=
          Int.add_mul_emod_self_left e 16777216 1
        have h2 : (e + 16777216 * 1) % 16777216 = e + 16777216 * 1 :=
          Int.emod_eq_of_lt (by omega) (by omega)
        omega
      rw [hmod]
      rw [if_neg (by
        push_cast
        have h3 : (8388608 : ℚ) ≤ ((e + 16777216 : ℤ) : ℚ) := by
          exact_mod_cast (show (8388608 : ℤ) ≤ e + 16777216 by omega)
        push_cast at h3
        linarith)]
      push_cast
      ring
  rw [hunpack]
  norm_num at h ⊢
  convert h using 2

/-- Float32 decode ∘ encode is the identity (no conversion is applied). -/
theorem roundtrip_float32 (x : ℚ) :
    rf_decode_sample .float32 (rf_encode_sample .float32 x) = x := rfl

/-- After the frame loop of `rf_ring_write` writes `n ≤ capacity` frames, the
payload slot of frame `i`, channel `c` holds the encoded sample
`input (i * channels + c)` (distinct frames occupy distinct ring positions). -/
theorem rf_ring_write_data_get (capacity channels : ℕ) (format : RFAudioFormat)
    (w : ℕ) (input : ℕ → ℚ) (data : ℕ → ℚ) (n : ℕ) (hn : n ≤ capacity)
    (i : ℕ) (hi : i < n) (c : ℕ) (hc : c < channels) :
    ((List.range n).foldl (writeFrameData capacity channels format w input) data)
        (((w + i) % capacity) * channels + c) =
      rf_encode_sample format (input (i * channels + c)) := by
  induction n generalizing data with
  | zero => omega
  | succ m ih =>
      rw [List.range_succ, List.foldl_append, List.foldl_cons, List.foldl_nil]
      rcases Nat.lt_or_ge i m with him | him
      · -- frame i was written earlier; the final write (frame m) does not
        -- touch its slot because the ring positions differ
        have hne : (w + i) % capacity ≠ (w + m) % capacity := by
          intro heq
          have hmod : Nat.ModEq capacity (w + i) (w + m) := heq
          have hdvd : capacity ∣ (w + m) - (w + i) :=
            (Nat.modEq_iff_dvd' (by omega)).mp hmod
          have : capacity ≤ (w + m) - (w + i) := Nat.le_of_dvd (by omega) hdvd
          omega
        have hcond : ¬ (((w + m) % capacity) * channels ≤
            ((w + i) % capacity) * channels + c ∧
            ((w + i) % capacity) * channels + c <
              ((w + m) % capacity) * channels + channels) := by
          intro ⟨hle, hlt⟩
          rcases Nat.lt_or_ge ((w + i) % capacity) ((w + m) % capacity) with hab | hab
          · have h1 : ((w + i) % capacity + 1) * channels ≤
                ((w + m) % capacity) * channels := Nat.mul_le_mul_right _ (by omega)
            rw [add_mul, one_mul] at h1
            have h2 : ((w + i) % capacity) * channels + channels ≤
                ((w + i) % capacity) * channels + c := le_trans h1 hle
            exact absurd (Nat.le_of_add_le_add_left h2) (by omega)
          · have hab' : (w + m) % capacity < (w + i) % capacity := by
              omega
            have h1 : ((w + m) % capacity + 1) * channels ≤
                ((w + i) % capacity) * channels := Nat.mul_le_mul_right _ (by omega)
            rw [add_mul, one_mul] at h1
            have h2 : ((w + i) % capacity) * channels + c <
                ((w + i) % capacity) * channels :=
              Nat.lt_of_lt_of_le hlt h1
            exact absurd h2 (Nat.not_lt.mpr (Nat.le_add_right _ _))
        show writeFrameData capacity channels format w input
            ((List.range m).foldl (writeFrameData capacity channels format w input)
              data) m (((w + i) % capacity) * channels + c) =
          rf_encode_sample format (input (i * channels + c))
        unfold writeFrameData
        dsimp only
        rw [if_neg hcond]
        apply ih <;> omega
      · -- i = m: this is exactly the final write
        have hieq : i = m := by omega
        subst hieq
        unfold writeFrameData
        dsimp only
        rw [if_pos ⟨Nat.le_add_right _ _, Nat.add_lt_add_left hc _⟩]
        rw [Nat.add_sub_cancel_left]

/-- Writing `n` frames into an empty segment with room and reading them
straight back reconstructs `decode (encode sample)` at every output slot. -/
theorem ring_roundtrip_getD (s : RFSharedAudio) (input : ℕ → ℚ) (n : ℕ)
    (hch : 0 < s.channels) (hempty : s.read_index = s.write_index)
    (hn : n ≤ s.ring_capacity_frames) :
    ∀ idx, idx < n * s.channels →
      (rf_ring_read (rf_ring_write s input n) n).1.getD idx 0 =
        rf_decode_sample s.format (rf_encode_sample s.format (input idx)) := by
  intro idx hidx
  have hused : s.write_index - s.read_index = 0 := by omega
  have hnoover : ¬ (s.ring_capacity_frames <
      (s.write_index - s.read_index) + n) := by omega
  unfold rf_ring_write rf_ring_read
  dsimp only
  rw [if_neg hnoover]
  have havail : s.write_index + n - s.read_index = n := by omega
  rw [havail, Nat.min_self]
  have hframe : idx / s.channels < n := (Nat.div_lt_iff_lt_mul hch).mpr (by omega)
  rw [List.getD_eq_getElem _ _ (by simpa using hidx)]
  simp only [List.getElem_map, List.getElem_range]
  rw [if_pos hframe]
  rw [hempty]
  rw [rf_ring_write_data_get s.ring_capacity_frames s.channels s.format
    s.write_index input s.audio_data n hn (idx / s.channels) hframe
    (idx % s.channels) (Nat.mod_lt _ hch)]
  have hdm := Nat.div_add_mod idx s.channels
  rw [Nat.mul_comm s.channels (idx / s.channels)] at hdm
  rw [hdm]

/-- C4 counterexample: the claimed Int16 round-trip bound `1/32768` fails.
Writing the float32-representable sample `(2^23 + 1) / 2^24` (magnitude ≤ 1)
through an Int16 ring and reading it back gives an error of `513 / 2^24`,
which exceeds `1/32768 = 512 / 2^24` — because the write path scales by 32767
and truncates toward zero while the read path divides by 32768. -/
theorem ring_roundtrip_int16_bound_fails :
    |int16RoundtripIn| ≤ 1 ∧
    ¬ (|int16RoundtripOut - int16RoundtripIn| ≤ 1 / 32768) := by
  constructor
  · norm_num [int16RoundtripIn, abs_le]
  · have hclamp : clampQ ((8388609 : ℚ) / 16777216) = (8388609 : ℚ) / 16777216 := by
      unfold clampQ
      rw [if_neg (by norm_num), if_neg (by norm_num)]
    have hfloor : truncQ ((274869551103 : ℚ) / 16777216) = 16383 := by
      unfold truncQ
      rw [if_pos (by norm_num), Int.floor_eq_iff]
      norm_num
    have hout : int16RoundtripOut = 16383 / 32768 := by
      unfold int16RoundtripOut rf_ring_read rf_ring_write rf_shared_audio_init
        writeFrameData
      norm_num [List.range_succ, List.range_zero, List.foldl_cons,
        List.foldl_nil, rf_encode_sample, rf_decode_sample,
        int16RoundtripIn, hclamp, hfloor]
    rw [hout]
    unfold int16RoundtripIn
    rw [show (16383 : ℚ) / 32768 - 8388609 / 16777216 = -(513 / 16777216) by
      norm_num]
    rw [abs_neg, abs_of_pos (by norm_num)]
    norm_num

/-- C4 amended: for frames with samples in `[-1, 1]` written into an empty
segment with room and immediately read back, each reconstructed sample equals
the original exactly for Float32, and differs by at most `2/32768` for Int16,
at most `2/8388608` for Int24, and at most `2/2147483648` for Int32 (twice the
claimed bounds, due to scale-by-max-positive combined with truncation). -/
theorem ring_roundtrip_quantisation (s : RFSharedAudio) (input : ℕ → ℚ) (n : ℕ)
    (hch : 0 < s.channels) (hempty : s.read_index = s.write_index)
    (hn : n ≤ s.ring_capacity_frames) (hx : ∀ i, |input i| ≤ 1) :
    ∀ idx, idx < n * s.channels →
      (s.format = .float32 →
        (rf_ring_read (rf_ring_write s input n) n).1.getD idx 0 = input idx) ∧
      (s.format = .int16 →
        |(rf_ring_read (rf_ring_write s input n) n).1.getD idx 0 - input idx| ≤
          2 / 32768) ∧
      (s.format = .int24 →
        |(rf_ring_read (rf_ring_write s input n) n).1.getD idx 0 - input idx| ≤
          2 / 8388608) ∧
      (s.format = .int32 →
        |(rf_ring_read (rf_ring_write s input n) n).1.getD idx 0 - input idx| ≤
          2 / 2147483648) := by
  intro idx hidx
  have hout := ring_roundtrip_getD s input n hch hempty hn idx hidx
  refine ⟨fun hf => ?_, fun hf => ?_, fun hf => ?_, fun hf => ?_⟩ <;>
    rw [hout, hf]
  · exact roundtrip_float32 _
  · exact roundtrip_int16 _ (hx idx)
  · exact roundtrip_int24 _ (hx idx)
  · exact roundtrip_int32 _ (hx idx)

/-- Witness for the amended C4 at a concrete Int16 segment and sample. -/
theorem ring_roundtrip_quantisation_witness :
    (0 < (rf_shared_audio_init 4 1 .int16).channels ∧
      (rf_shared_audio_init 4 1 .int16).read_index =
        (rf_shared_audio_init 4 1 .int16).write_index ∧
      1 ≤ (rf_shared_audio_init 4 1 .int16).ring_capacity_frames ∧
      (∀ i : ℕ, |(fun _ : ℕ => (1 : ℚ)/2) i| ≤ 1) ∧ 0 < 1 * 1) ∧
    |(rf_ring_read
        (rf_ring_write (rf_shared_audio_init 4 1 .int16) (fun _ => 1/2) 1)
        1).1.getD 0 0 - 1/2| ≤ 2 / 32768 := by
  have hx : ∀ i : ℕ, |(fun _ : ℕ => (1 : ℚ)/2) i| ≤ 1 := fun i => by
    norm_num [abs_le]
  have h := ring_roundtrip_quantisation (rf_shared_audio_init 4 1 .int16)
    (fun _ => 1/2) 1 (by decide) (by decide) (by decide) hx 0 (by decide)
  exact ⟨⟨by decide, by decide, by decide, hx, by decide⟩, h.2.1 rfl⟩

/-- Below the knee the limiter is unity gain. -/
theorem softLimiter_below_knee (L : SoftLimiter) (x : ℚ)
    (h : |x| ≤ L.knee_start) : L.processSample x = x := by
  unfold SoftLimiter.processSample
  dsimp only
  rw [if_pos h]

/-- The limiter output magnitude never exceeds the threshold (given the
knee at 80% of a positive threshold, as `setThreshold` establishes). -/
theorem softLimiter_abs_le_threshold (L : SoftLimiter)
    (hth : 0 < L.threshold)
    (hknee : L.knee_start = L.threshold * (8/10)) (x : ℚ) :
    |L.processSample x| ≤ L.threshold := by
  unfold SoftLimiter.processSample
  dsimp only
  split
  · next h =>
    calc |x| ≤ L.knee_start := h
      _ ≤ L.threshold := by rw [hknee]; linarith
  · next h =>
    push_neg at h
    have hk0 : 0 ≤ L.knee_start := by rw [hknee]; linarith
    have hd : 0 < L.threshold - L.knee_start := by rw [hknee]; linarith
    have hs : 0 < (|x| - L.knee_start) / (L.threshold - L.knee_start) :=
      div_pos (by linarith) hd
    set s := (|x| - L.knee_start) / (L.threshold - L.knee_start) with hsdef
    have hfrac0 : 0 ≤ s / (1 + s) := le_of_lt (div_pos hs (by linarith))
    have hfrac1 : s / (1 + s) < 1 := (div_lt_one (by linarith)).mpr (by linarith)
    have hlim0 : 0 ≤ L.knee_start + (L.threshold - L.knee_start) * (s / (1 + s)) :=
      add_nonneg hk0 (mul_nonneg hd.le hfrac0)
    have hmul : (L.threshold - L.knee_start) * (s / (1 + s)) <
        (L.threshold - L.knee_start) * 1 :=
      mul_lt_mul_of_pos_left hfrac1 hd
    have hlim1 : L.knee_start + (L.threshold - L.knee_start) * (s / (1 + s)) ≤
        L.threshold := by linarith
    split
    · rw [abs_neg, abs_of_nonneg hlim0]
      exact hlim1
    · rw [abs_of_nonneg hlim0]
      exact hlim1

/-- One frame step does not change the limiter configuration. -/
theorem engineProcessFrame_limiter_eq (e : radioform_dsp_engine) (l r : ℚ) :
    (engineProcessFrame e l r).2.limiter = e.limiter ∧
    (engineProcessFrame e l r).2.limiter_enabled = e.limiter_enabled :=
  ⟨rfl, rfl⟩

/-- With the limiter enabled, both outputs of one frame step are bounded by
the threshold, because the limiter is the last stage before the output. -/
theorem engineProcessFrame_out_abs_le (e : radioform_dsp_engine) (l r : ℚ)
    (hl : e.limiter_enabled = true)
    (hth : 0 < e.limiter.threshold)
    (hknee : e.limiter.knee_start = e.limiter.threshold * (8/10)) :
    |(engineProcessFrame e l r).1.1| ≤ e.limiter.threshold ∧
    |(engineProcessFrame e l r).1.2| ≤ e.limiter.threshold := by
  unfold engineProcessFrame
  simp only [hl, if_true]
  exact ⟨softLimiter_abs_le_threshold _ hth hknee _,
    softLimiter_abs_le_threshold _ hth hknee _⟩

/-- Every sample produced by the frame loop is bounded by the threshold while
the limiter is enabled. -/
theorem engineProcessFramesI_out_abs_le (input : ℕ → ℚ) (k : ℕ) :
    ∀ (first : ℕ) (e : radioform_dsp_engine), e.limiter_enabled = true →
    0 < e.limiter.threshold →
    e.limiter.knee_start = e.limiter.threshold * (8/10) →
    ∀ y ∈ (engineProcessFramesI input first k e).1, |y| ≤ e.limiter.threshold := by
  induction k with
  | zero =>
    intro first e _ _ _ y hy
    simp [engineProcessFramesI] at hy
  | succ m ih =>
    intro first e hl hth hknee y hy
    simp only [engineProcessFramesI, List.mem_cons] at hy
    have hout := engineProcessFrame_out_abs_le e (input (2 * first))
      (input (2 * first + 1)) hl hth hknee
    rcases hy with h | h | h
    · rw [h]; exact hout.1
    · rw [h]; exact hout.2
    · have heq := engineProcessFrame_limiter_eq e (input (2 * first))
        (input (2 * first + 1))
      have hrec := ih (first + 1)
        (engineProcessFrame e (input (2 * first)) (input (2 * first + 1))).2
        (by rw [heq.2]; exact hl) (by rw [heq.1]; exact hth)
        (by rw [heq.1]; exact hknee) y h
      rwa [heq.1] at hrec

/-- C5: with the limiter enabled at a positive linear threshold at most 1
(the `-0.1 dB` threshold is `10^(-0.005) < 1`) and the knee at 80% of it,
every output sample of `radioform_dsp_process_interleaved` has magnitude at
most 1, whatever the preamp state and input; moreover `processSample` never
exceeds the knee for inputs below the knee, nor the threshold for inputs
above it. -/
theorem limiter_prevents_clipping (e : radioform_dsp_engine) (input : ℕ → ℚ)
    (n : ℕ) (peak_decay : ℚ)
    (hb : e.bypass = false) (hl : e.limiter_enabled = true)
    (hth : 0 < e.limiter.threshold) (hth1 : e.limiter.threshold ≤ 1)
    (hknee : e.limiter.knee_start = e.limiter.threshold * (8/10)) :
    (∀ y ∈ (radioform_dsp_process_interleaved e input n peak_decay).1, |y| ≤ 1) ∧
    (∀ x : ℚ, |x| ≤ e.limiter.knee_start →
      |e.limiter.processSample x| ≤ e.limiter.knee_start) ∧
    (∀ x : ℚ, e.limiter.knee_start < |x| →
      |e.limiter.processSample x| ≤ e.limiter.threshold) := by
  refine ⟨?_, ?_, ?_⟩
  · intro y hy
    unfold radioform_dsp_process_interleaved at hy
    rcases Nat.eq_zero_or_pos n with h0 | h0
    · simp [h0] at hy
    · rw [if_neg (by omega), if_neg (by rw [hb]; exact Bool.false_ne_true)] at hy
      have := engineProcessFramesI_out_abs_le input n 0 e hl hth hknee y hy
      linarith
  · intro x hx
    rw [softLimiter_below_knee _ _ hx]
    exact hx
  · intro x _
    exact softLimiter_abs_le_threshold _ hth hknee x

/-- Witness for C5 at a concrete engine (threshold `99/100`) and a loud
constant input of amplitude 2 over three frames. -/
theorem limiter_prevents_clipping_witness :
    (limiterDemoEngine.bypass = false ∧
      limiterDemoEngine.limiter_enabled = true ∧
      0 < limiterDemoEngine.limiter.threshold ∧
      limiterDemoEngine.limiter.threshold ≤ 1 ∧
      limiterDemoEngine.limiter.knee_start =
        limiterDemoEngine.limiter.threshold * (8/10)) ∧
    (∀ y ∈ (radioform_dsp_process_interleaved limiterDemoEngine
        (fun _ => 2) 3 1).1, |y| ≤ 1) := by
  have hth : 0 < limiterDemoEngine.limiter.threshold := by
    show (0 : ℚ) < 99/100
    norm_num
  have hth1 : limiterDemoEngine.limiter.threshold ≤ 1 := by
    show (99 : ℚ)/100 ≤ 1
    norm_num
  have h := limiter_prevents_clipping limiterDemoEngine (fun _ => 2) 3 1
    rfl rfl hth hth1 rfl
  exact ⟨⟨rfl, rfl, hth, hth1, rfl⟩, h.1⟩

/-- C6: with bypass set, both process paths return output equal to the input
(the memcpy passthrough) and leave the engine state untouched: no preamp,
filter, DC-blocker or limiter processing is applied and no statistics are
updated. -/
theorem bypass_bit_exact (e : radioform_dsp_engine)
    (input input_left input_right : ℕ → ℚ) (n : ℕ) (peak_decay : ℚ)
    (hb : e.bypass = true) :
    radioform_dsp_process_interleaved e input n peak_decay =
      ((List.range (2 * n)).map input, e) ∧
    radioform_dsp_process_planar e input_left input_right n peak_decay =
      (((List.range n).map input_left, (List.range n).map input_right), e) := by
  constructor
  · unfold radioform_dsp_process_interleaved
    rcases Nat.eq_zero_or_pos n with h0 | h0
    · subst h0
      simp
    · rw [if_neg (by omega), if_pos hb]
  · unfold radioform_dsp_process_planar
    rcases Nat.eq_zero_or_pos n with h0 | h0
    · subst h0
      simp
    · rw [if_neg (by omega), if_pos hb]

/-- Witness for C6 at a concrete bypassed engine and concrete inputs. -/
theorem bypass_bit_exact_witness :
    bypassDemoEngine.bypass = true ∧
    radioform_dsp_process_interleaved bypassDemoEngine (fun i => (i : ℚ)) 4 1 =
      ((List.range (2 * 4)).map (fun i => (i : ℚ)), bypassDemoEngine) ∧
    radioform_dsp_process_planar bypassDemoEngine (fun i => (i : ℚ))
        (fun _ => 0) 4 1 =
      (((List.range 4).map (fun i => (i : ℚ)),
        (List.range 4).map (fun _ : ℕ => (0 : ℚ))), bypassDemoEngine) := by
  have h := bypass_bit_exact bypassDemoEngine (fun i => (i : ℚ))
    (fun i => (i : ℚ)) (fun _ => 0) 4 1 rfl
  exact ⟨rfl, h.1, h.2⟩

/-- C7 counterexample: a preset whose band 0 frequency is NaN passes
validation — the explicit NaN check covers only `preamp_db`, and NaN fails
none of the band range comparisons. -/
theorem preset_validate_accepts_nan_band :
    (presetNanDemo.bands.getD 0 defaultBand).frequency_hz = FVal.nan ∧
    radioform_dsp_preset_validate presetNanDemo = .ok := by
  constructor
  · rfl
  · decide

/-- An infinite value fails any `v < lo || v > hi` float range check. -/
theorem fval_inf_fails_range (v : FVal) (a b : ℚ) (h : v.isinf = true) :
    (FVal.ltb v (.fin a) || FVal.gtb v (.fin b)) = true := by
  cases v <;> simp_all [FVal.isinf, FVal.ltb, FVal.gtb]

/-- An infinite value in any checked band field makes the band check fail. -/
theorem bandOk_false_of_inf (b : radioform_band_t)
    (h : b.frequency_hz.isinf = true ∨ b.gain_db.isinf = true ∨
      b.q_factor.isinf = true) :
    bandOk b = false := by
  unfold bandOk
  rcases h with h | h | h <;> rw [fval_inf_fails_range _ _ _ h] <;> simp

/-- C7 amended: the validator rejects every infinite value in a checked
field — any active band's frequency, gain or Q, the preamp, or the limiter
threshold (infinities fail the range checks) — and rejects NaN in
`preamp_db`; but NaN elsewhere is accepted (see the counterexample). -/
theorem preset_validate_rejects_inf_and_preamp_nan (p : radioform_preset_t)
    (h : p.preamp_db.isnan = true ∨ p.preamp_db.isinf = true ∨
      p.limiter_threshold_db.isinf = true ∨
      (∃ i, i < p.num_bands ∧
        ((p.bands.getD i defaultBand).frequency_hz.isinf = true ∨
         (p.bands.getD i defaultBand).gain_db.isinf = true ∨
         (p.bands.getD i defaultBand).q_factor.isinf = true))) :
    radioform_dsp_preset_validate p ≠ .ok := by
  intro hok
  unfold radioform_dsp_preset_validate at hok
  split at hok
  · exact absurd hok (by simp)
  split at hok
  · exact absurd hok (by simp)
  split at hok
  · exact absurd hok (by simp)
  split at hok
  · exact absurd hok (by simp)
  split at hok
  · exact absurd hok (by simp)
  next h1 h2 h3 h4 h5 =>
    rcases h with hnan | hinf | hlim | ⟨i, hi, hband⟩
    · exact h5 (by simp [hnan])
    · exact h5 (by simp [hinf])
    · exact h4 (fval_inf_fails_range _ _ _ hlim)
    · simp only [Bool.not_eq_true, Bool.not_eq_false'] at h2
      have hall := h2
      rw [List.all_eq_true] at hall
      have := hall i (List.mem_range.mpr hi)
      rw [bandOk_false_of_inf _ hband] at this
      exact absurd this (by simp)

/-- Witness for the amended C7: the flat preset with `preamp_db = +Inf` is
rejected. -/
theorem preset_validate_rejects_inf_witness :
    (presetInfDemo.preamp_db.isnan = true ∨
      presetInfDemo.preamp_db.isinf = true ∨
      presetInfDemo.limiter_threshold_db.isinf = true ∨
      (∃ i, i < presetInfDemo.num_bands ∧
        ((presetInfDemo.bands.getD i defaultBand).frequency_hz.isinf = true ∨
         (presetInfDemo.bands.getD i defaultBand).gain_db.isinf = true ∨
         (presetInfDemo.bands.getD i defaultBand).q_factor.isinf = true))) ∧
    radioform_dsp_preset_validate presetInfDemo ≠ .ok := by
  have hh : presetInfDemo.preamp_db.isnan = true ∨
      presetInfDemo.preamp_db.isinf = true ∨
      presetInfDemo.limiter_threshold_db.isinf = true ∨
      (∃ i, i < presetInfDemo.num_bands ∧
        ((presetInfDemo.bands.getD i defaultBand).frequency_hz.isinf = true ∨
         (presetInfDemo.bands.getD i defaultBand).gain_db.isinf = true ∨
         (presetInfDemo.bands.getD i defaultBand).q_factor.isinf = true)) :=
    Or.inr (Or.inl rfl)
  exact ⟨hh, preset_validate_rejects_inf_and_preamp_nan presetInfDemo hh⟩

/-- C10: if `apply_preset` succeeds, a subsequent `get_preset` returns the
applied preset unmodified — the engine stores the validated preset via a
plain `memcpy`, without re-clamping or rewriting any field. -/
theorem apply_preset_get_preset_roundtrip (e : EnginePresetState)
    (p : radioform_preset_t)
    (h : (radioform_dsp_apply_preset e p).1 = .ok) :
    radioform_dsp_get_preset (radioform_dsp_apply_preset e p).2 = p := by
  unfold radioform_dsp_apply_preset at h ⊢
  cases hv : radioform_dsp_preset_validate p <;>
    simp_all [radioform_dsp_get_preset]

/-- Witness for C10: applying the flat preset succeeds and reads back
byte-for-byte equal. -/
theorem apply_preset_get_preset_roundtrip_witness :
    (radioform_dsp_apply_preset presetDemoEngine
      radioform_dsp_preset_init_flat).1 = .ok ∧
    radioform_dsp_get_preset (radioform_dsp_apply_preset presetDemoEngine
      radioform_dsp_preset_init_flat).2 = radioform_dsp_preset_init_flat := by
  have h : (radioform_dsp_apply_preset presetDemoEngine
      radioform_dsp_preset_init_flat).1 = .ok := by decide
  exact ⟨h, apply_preset_get_preset_roundtrip _ _ h⟩

/-- The add loop never removes a present device. -/
theorem syncAddStep_mem_mono (now : ℚ) (g : FleetState) (uid u : String)
    (h : u ∈ g.devices) : u ∈ (syncAddStep now g uid).devices := by
  unfold syncAddStep AddDevice
  split
  · exact h
  split
  · exact h
  · dsimp only
    exact List.mem_cons_of_mem _ h

/-- Folded version of `syncAddStep_mem_mono`. -/
theorem syncAddPhase_mem_mono (now : ℚ) (l : List String) :
    ∀ (g : FleetState) (u : String), u ∈ g.devices →
      u ∈ (l.foldl (syncAddStep now) g).devices := by
  induction l with
  | nil => intro g u h; exact h
  | cons a l ih =>
    intro g u h
    exact ih _ u (syncAddStep_mem_mono now g a u h)

/-- Processing some other UID leaves a UID's removal timestamp alone. -/
theorem syncAddStep_removal_other (now : ℚ) (g : FleetState) (uid u : String)
    (hne : u ≠ uid) :
    (syncAddStep now g uid).removal_times u = g.removal_times u := by
  unfold syncAddStep AddDevice
  split
  · rfl
  split
  · rfl
  · dsimp only
    rw [if_neg hne]

/-- A UID distinct from the processed one is not introduced by a step. -/
theorem syncAddStep_not_mem (now : ℚ) (g : FleetState) (a u : String)
    (hne : u ≠ a) (h : u ∉ g.devices) :
    u ∉ (syncAddStep now g a).devices := by
  unfold syncAddStep AddDevice
  split
  · exact h
  split
  · exact h
  · dsimp only
    intro hmem
    rcases List.mem_cons.mp hmem with he | hm
    · exact hne he
    · exact h hm

/-- While a removed UID is still within the cooldown, the whole add phase
neither re-adds it nor clears its removal timestamp. -/
theorem syncAddPhase_blocked (now t : ℚ) (uid : String)
    (hcool : truncQ (now - t) < 10) (l : List String) :
    ∀ g : FleetState, uid ∉ g.devices → g.removal_times uid = some t →
      uid ∉ (l.foldl (syncAddStep now) g).devices ∧
      (l.foldl (syncAddStep now) g).removal_times uid = some t := by
  induction l with
  | nil => intro g h1 h2; exact ⟨h1, h2⟩
  | cons a l ih =>
    intro g h1 h2
    rw [List.foldl_cons]
    by_cases ha : a = uid
    · subst ha
      have hstep : syncAddStep now g a = g := by
        unfold syncAddStep
        rw [if_neg h1, if_pos ?_]
        unfold IsDeviceInCooldown
        rw [h2]
        exact decide_eq_true hcool
      rw [hstep]
      exact ih g h1 h2
    · have hne : uid ≠ a := fun he => ha he.symm
      apply ih
      · exact syncAddStep_not_mem now g a uid hne h1
      · rw [syncAddStep_removal_other now g a uid hne]
        exact h2

/-- Once the cooldown has elapsed, the add phase re-adds a desired UID whose
removal timestamp is still on record. -/
theorem syncAddPhase_adds (now t : ℚ) (uid : String)
    (hnc : ¬ truncQ (now - t) < 10) (l : List String) :
    ∀ g : FleetState, uid ∈ l →
      (uid ∈ g.devices ∨ g.removal_times uid = some t) →
      uid ∈ (l.foldl (syncAddStep now) g).devices := by
  induction l with
  | nil => intro g h _; exact absurd h (List.not_mem_nil uid)
  | cons a l ih =>
    intro g hmem hdisj
    rw [List.foldl_cons]
    by_cases ha : a = uid
    · subst ha
      have hstep : a ∈ (syncAddStep now g a).devices := by
        unfold syncAddStep
        by_cases hin : a ∈ g.devices
        · rw [if_pos hin]
          exact hin
        · rw [if_neg hin]
          rcases hdisj with hd | hd
          · exact absurd hd hin
          · rw [if_neg ?_]
            · unfold AddDevice
              dsimp only
              rw [if_neg hin]
              exact List.mem_cons_self _ _
            · unfold IsDeviceInCooldown
              rw [hd]
              simp only [decide_eq_true_eq]
              exact hnc
      exact syncAddPhase_mem_mono now l _ a hstep
    · have huidl : uid ∈ l := by
        rcases List.mem_cons.mp hmem with he | hm
        · exact absurd he.symm ha
        · exact hm
      apply ih _ huidl
      rcases hdisj with hin | hrt
      · exact Or.inl (syncAddStep_mem_mono now g a uid hin)
      · exact Or.inr (by
          rw [syncAddStep_removal_other now g a uid (fun he => ha he.symm)]
          exact hrt)

/-- The remove phase never introduces a device. -/
theorem removePhase_not_mem (now : ℚ) (l : List String) :
    ∀ (g : FleetState) (u : String), u ∉ g.devices →
      u ∉ (l.foldl (fun acc uid => RemoveDevice acc uid now) g).devices := by
  induction l with
  | nil => intro g u h; exact h
  | cons a l ih =>
    intro g u h
    rw [List.foldl_cons]
    apply ih
    unfold RemoveDevice
    split
    · dsimp only
      intro hmem
      exact h (List.mem_of_mem_erase hmem)
    · exact h

/-- The remove phase keeps a device none of whose UIDs it removes. -/
theorem removePhase_mem_of_ne (now : ℚ) (l : List String) :
    ∀ (g : FleetState) (u : String), (∀ v ∈ l, v ≠ u) → u ∈ g.devices →
      u ∈ (l.foldl (fun acc uid => RemoveDevice acc uid now) g).devices := by
  induction l with
  | nil => intro g u _ h; exact h
  | cons a l ih =>
    intro g u hne h
    rw [List.foldl_cons]
    apply ih _ u (fun v hv => hne v (List.mem_cons_of_mem _ hv))
    unfold RemoveDevice
    split
    · dsimp only
      have hau : u ≠ a := fun he => hne a (List.mem_cons_self a l) he.symm
      exact (List.mem_erase_of_ne hau).mpr h
    · exact h

/-- C8: for a UID whose removal was recorded at time `t`, a synchronisation
pass at time `now` with `now - t < 10` does not re-create the device even
when the control file lists it with a fresh heartbeat; once `10 ≤ now - t`
the pass re-adds it. -/
theorem device_cooldown (g : FleetState) (uid : String) (t now : ℚ)
    (desired : List String) (fresh : String → Bool)
    (hrem : g.removal_times uid = some t) (ht : t ≤ now) :
    (now - t < 10 → uid ∉ g.devices →
      uid ∉ (SyncDevices g desired fresh now).devices) ∧
    (10 ≤ now - t → uid ∈ desired → fresh uid = true →
      uid ∈ (SyncDevices g desired fresh now).devices) := by
  have ht0 : (0 : ℚ) ≤ now - t := by linarith
  constructor
  · intro hlt hnm
    have hcool : truncQ (now - t) < 10 := by
      unfold truncQ
      rw [if_pos ht0]
      exact Int.floor_lt.mpr (by exact_mod_cast hlt)
    unfold SyncDevices
    have hadd := syncAddPhase_blocked now t uid hcool (desired.filter fresh)
      g hnm hrem
    exact removePhase_not_mem now _ _ uid hadd.1
  · intro hge hdes hf
    have hnc : ¬ truncQ (now - t) < 10 := by
      unfold truncQ
      rw [if_pos ht0]
      push_neg
      exact Int.le_floor.mpr (by exact_mod_cast hge)
    unfold SyncDevices
    have hwant : uid ∈ desired.filter fresh := List.mem_filter.mpr ⟨hdes, hf⟩
    have hadd := syncAddPhase_adds now t uid hnc (desired.filter fresh) g
      hwant (Or.inr hrem)
    apply removePhase_mem_of_ne
    · intro v hv he
      have hm := List.mem_filter.mp hv
      exact (of_decide_eq_true hm.2) (he ▸ hwant)
    · exact hadd

/-- Witness for C8: UID `dev-a` removed at time 0 is not re-added at time 5
but is re-added at time 12. -/
theorem device_cooldown_witness :
    (fleetDemoState.removal_times "dev-a" = some 0 ∧ (0 : ℚ) ≤ 5 ∧
      (0 : ℚ) ≤ 12) ∧
    "dev-a" ∉ (SyncDevices fleetDemoState ["dev-a"] (fun _ => true) 5).devices ∧
    "dev-a" ∈ (SyncDevices fleetDemoState ["dev-a"] (fun _ => true) 12).devices := by
  have hrem : fleetDemoState.removal_times "dev-a" = some 0 := by
    simp [fleetDemoState]
  have h5 := device_cooldown fleetDemoState "dev-a" 0 5 ["dev-a"]
    (fun _ => true) hrem (by norm_num)
  have h12 := device_cooldown fleetDemoState "dev-a" 0 12 ["dev-a"]
    (fun _ => true) hrem (by norm_num)
  refine ⟨⟨hrem, by norm_num, by norm_num⟩, ?_, ?_⟩
  · exact h5.1 (by norm_num) (by simp [fleetDemoState])
  · exact h12.2 (by norm_num) (by simp) rfl

/-- C9: the health check fails once the observed host heartbeat has been
constant for 5 or more seconds since its last observed change (or since
initial observation); a changed heartbeat value keeps the heartbeat part of
the check passing, leaving only the mapping / file / connection / ring
checks; and when the periodic check in `OnWriteMixedOutput` runs and
`IsHealthy` returns false, `AttemptRecovery` is invoked. -/
theorem heartbeat_health (o : HealthObs) (cache : HeartbeatCache) (now : ℚ) :
    (o.host_heartbeat = cache.last_value → 5 ≤ now - cache.last_change →
      (IsHealthy o cache now).1 = false) ∧
    (o.host_heartbeat ≠ cache.last_value →
      (IsHealthy o cache now).1 =
        (o.mapped && o.file_ok && !(decide (o.host_connected = 0)) &&
          ringChecksOk o)) ∧
    (∀ lhc : ℚ, 3 ≤ truncQ (now - lhc) →
      (IsHealthy o cache now).1 = false →
      (OnWriteHealthPhase o cache now lhc).1 = true) := by
  refine ⟨?_, ?_, ?_⟩
  · intro heq hage
    have h5 : (5 : ℤ) ≤ truncQ (now - cache.last_change) := by
      unfold truncQ
      rw [if_pos (by linarith)]
      exact Int.le_floor.mpr (by exact_mod_cast hage)
    unfold IsHealthy
    split
    · rfl
    · split
      · rfl
      · split
        · rfl
        · split
          · next hne => exact absurd heq hne
          · rfl
  · intro hne
    cases hm : o.mapped <;> cases hf : o.file_ok <;>
      by_cases hc : o.host_connected = 0 <;>
        simp [IsHealthy, hm, hf, hc, hne]
  · intro lhc h3 hfail
    unfold OnWriteHealthPhase
    rw [if_pos h3, hfail]
    rfl

/-- Witness for C9: at time 6, a heartbeat cached as unchanged since time 0
makes the health check fail and the periodic check attempt recovery. -/
theorem heartbeat_health_witness :
    (healthDemoObs.host_heartbeat = healthDemoCache.last_value ∧
      (5 : ℚ) ≤ 6 - healthDemoCache.last_change ∧
      (3 : ℤ) ≤ truncQ ((6 : ℚ) - 0)) ∧
    (IsHealthy healthDemoObs healthDemoCache 6).1 = false ∧
    (OnWriteHealthPhase healthDemoObs healthDemoCache 6 0).1 = true := by
  have hage : (5 : ℚ) ≤ 6 - healthDemoCache.last_change := by
    show (5 : ℚ) ≤ 6 - 0
    norm_num
  have h3 : (3 : ℤ) ≤ truncQ ((6 : ℚ) - 0) := by
    unfold truncQ
    rw [if_pos (by norm_num)]
    exact Int.le_floor.mpr (by norm_num)
  have h := heartbeat_health healthDemoObs healthDemoCache 6
  have hfail := h.1 rfl hage
  exact ⟨⟨rfl, hage, h3⟩, hfail, h.2.2 0 h3 hfail⟩
